import Mathlib

/-
Shallow embedding of src/redirector.py (tmpnb-redirector).

The registry is a Python dict keyed by host URL; dicts preserve insertion
order, so it is modelled as an association list in insertion order with
distinct keys. Poll results are whatever json.loads returned, so registry
values are modelled by a small JSON value type. The selector reads the
three-field records, so it is additionally given a typed record view.
-/

set_option autoImplicit false

namespace Redirector

/-- JSON values as produced by json.loads; numbers restricted to integers,
which covers every value the program itself constructs. -/
inductive Json where
  | null
  | bool (b : Bool)
  | num (n : Int)
  | str (s : String)
  | arr (elems : List Json)
  | obj (fields : List (String × Json))

/-- Discriminator: is this JSON value an object? -/
def Json.isObj : Json → Bool
  | .obj _ => true
  | _ => false

/-- Target record with the three fields the selector reads, modelling a
well-formed stats dict: available, capacity, down (lines 70-71, 124). A
record dict has three entries, hence is always truthy in Python. -/
structure Record where
  available : Nat
  capacity : Nat
  down : Bool
deriving Repr, DecidableEq

/-- down_stats (line 70-71): the canonical down record as a JSON object. -/
def down_stats : Json :=
  Json.obj [("available", Json.num 0), ("capacity", Json.num 0), ("down", Json.bool true)]

/-- Python dict membership: host in stats. -/
def containsKey (stats : List (String × Json)) (k : String) : Bool :=
  stats.any fun p => p.1 == k

/-- Python dict lookup d[k], as an Option. -/
def lookupKey (stats : List (String × Json)) (k : String) : Option Json :=
  (stats.find? fun p => p.1 == k).map Prod.snd

/-- Replace the value of one entry when its key matches. -/
def setEntry (k : String) (v : Json) (p : String × Json) : String × Json :=
  if p.1 == k then (p.1, v) else p

/-- Python dict assignment d[k] = v: replace in place when the key is
present, append otherwise. -/
def dictSet (stats : List (String × Json)) (k : String) (v : Json) : List (String × Json) :=
  if containsKey stats k then stats.map (setEntry k v)
  else stats ++ [(k, v)]

/-- Line 47: the dict comprehension filter condition is
not server_stats.get("down") — a lookup of the literal key "down" on the
WHOLE dict, not on the per-host record. Record values are non-empty dicts,
hence truthy, so the condition is false exactly when some pair has the key
"down"; otherwise the comprehension copies the whole dict. -/
def upCandidates (server_stats : List (String × Record)) : List (String × Record) :=
  if server_stats.any (fun p => p.1 == "down") then [] else server_stats

/-- Lines 56-59: total = sum of available over up; if that sum is zero,
total = sum of capacity over up instead. -/
def total_weight (up : List (String × Record)) : Nat :=
  let total := (up.map fun p => p.2.available).sum
  if total = 0 then (up.map fun p => p.2.capacity).sum else total

/-- Lines 62-66: the for loop over up. cumsum accumulates
stats[available] on every iteration (also in the capacity-fallback case);
the loop breaks at the first host whose cumsum reaches choice, and the
Python loop variable host retains the last iterated host on exhaustion. -/
def selectLoop (choice : Nat) : Nat → String → Record → List (String × Record) → String
  | cumsum, h, r, rest =>
    if cumsum + r.available ≥ choice then h
    else
      match rest with
      | [] => h
      | (h2, r2) :: rest2 => selectLoop choice (cumsum + r.available) h2 r2 rest2

/-- select_host (lines 45-68), with the call random.randint(0, total) on
line 61 abstracted by an oracle randint taking the two bounds the code
passes. On an empty up dict it raises HTTPError 503 with the message the
code picks (lines 48-53), modelled as Except.error of that message. -/
def select_host (server_stats : List (String × Record))
    (randint : Nat → Nat → Nat) : Except String String :=
  match upCandidates server_stats with
  | [] =>
    if server_stats.isEmpty then Except.error "All redirect targets are down"
    else Except.error "No redirect targets are available"
  | (h, r) :: rest =>
    let total := total_weight ((h, r) :: rest)
    let choice := randint 0 total
    Except.ok (selectLoop choice 0 h r rest)

/-- select_host run with a fixed drawn value for choice. -/
def select_host_with (server_stats : List (String × Record)) (choice : Nat) :
    Except String String :=
  select_host server_stats fun _ _ => choice

/-- An oracle is a valid model of random.randint when its result lies in
the closed interval between the bounds it is given. -/
def ValidRandint (randint : Nat → Nat → Nat) : Prop :=
  ∀ a b, a ≤ b → a ≤ randint a b ∧ randint a b ≤ b

/-- Per-host write-back of one poll outcome (lines 88-99): the result is
none when the fetch raised or json.loads raised (except branch, lines
92-95), and some data when the body parsed as the JSON value data (else
branch, lines 96-99). Both branches first test host in stats. -/
def pollHostResult (stats : List (String × Json)) (host : String)
    (result : Option Json) : List (String × Json) :=
  match result with
  | none => if containsKey stats host then dictSet stats host down_stats else stats
  | some data => if containsKey stats host then dictSet stats host data else stats

/-- The write-back loop of update_stats (lines 88-99): fold the per-host
outcomes, in completion order, over the registry. -/
def update_stats_writeback (stats : List (String × Json))
    (results : List (String × Option Json)) : List (String × Json) :=
  results.foldl (fun s p => pollHostResult s p.1 p.2) stats

/-- Follows the words of the spec, for comparison with pollHostResult: a
successful outcome requires the parsed value to be a record with at least
numeric available and capacity fields; any other shape is a parse failure,
treated like the failure branch. -/
def specValidRecord : Json → Bool
  | .obj fields =>
    (fields.any fun p => p.1 == "available" && (match p.2 with | .num _ => true | _ => false))
      && (fields.any fun p => p.1 == "capacity" && (match p.2 with | .num _ => true | _ => false))
  | _ => false

/-- Follows the words of the spec: write-back that degrades any body shape
other than a valid record to the canonical down record. -/
def pollHostResultSpec (stats : List (String × Json)) (host : String)
    (result : Option Json) : List (String × Json) :=
  match result with
  | some data =>
    if specValidRecord data then
      if containsKey stats host then dictSet stats host data else stats
    else
      if containsKey stats host then dictSet stats host down_stats else stats
  | none => if containsKey stats host then dictSet stats host down_stats else stats

/-- Characters allowed after the first one in a URL scheme: ASCII letters,
digits, plus, minus, dot. -/
def isSchemeChar (c : Char) : Bool :=
  c.isAlpha || c.isDigit || c == '+' || c == '-' || c == '.'

/-- ASCII lowercasing of one character; scheme characters are ASCII, so an
explicit table is exact. -/
def lowerChar : Char → Char
  | 'A' => 'a' | 'B' => 'b' | 'C' => 'c' | 'D' => 'd' | 'E' => 'e' | 'F' => 'f'
  | 'G' => 'g' | 'H' => 'h' | 'I' => 'i' | 'J' => 'j' | 'K' => 'k' | 'L' => 'l'
  | 'M' => 'm' | 'N' => 'n' | 'O' => 'o' | 'P' => 'p' | 'Q' => 'q' | 'R' => 'r'
  | 'S' => 's' | 'T' => 't' | 'U' => 'u' | 'V' => 'v' | 'W' => 'w' | 'X' => 'x'
  | 'Y' => 'y' | 'Z' => 'z'
  | c => c

/-- The characters before the first colon, or none when there is no
colon. -/
def beforeColon : List Char → Option (List Char)
  | [] => none
  | c :: rest => if c == ':' then some [] else (beforeColon rest).map (c :: ·)

/-- Modelled from the spec: urlparse(host).scheme on line 107 comes from
urllib.parse (standard library, not under src). The scheme is the
lowercased part before the first colon when that part is a letter
followed by scheme characters, and empty otherwise. -/
def urlScheme (url : String) : String :=
  match beforeColon url.data with
  | none => ""
  | some [] => ""
  | some (c :: rest) =>
    if c.isAlpha && rest.all isSchemeChar then String.mk ((c :: rest).map lowerChar)
    else ""

/-- Errors raised by the hosts API handler: HTTPError 400 from _get_host
(line 115) and the KeyError that stats.pop raises on a missing key
(line 130). -/
inductive ApiError where
  | badRequest
  | keyError
deriving Repr, DecidableEq

/-- HostsAPIHandler._get_host (lines 104-115). The request body is given
as the result of json.loads: none when the body did not parse. Any
exception — unparseable body, non-object body, missing host key,
non-string host (urlparse then raises), or a scheme other than http or
https — is caught and becomes HTTPError 400, modelled as none here. -/
def get_host (body : Option Json) : Option String :=
  match body with
  | some (Json.obj fields) =>
    match lookupKey fields "host" with
    | some (Json.str host) =>
      let scheme := urlScheme host
      if scheme == "http" || scheme == "https" then some host else none
    | _ => none
  | _ => none

/-- State touched by the hosts API: the in-memory stats dict and the
persisted hosts file, modelled as the list of lines written. -/
structure ApiState where
  stats : List (String × Json)
  hostsFile : List String

/-- Lexicographic strict order on character lists by code point, the order
Python uses to compare strings. -/
def charListLt : List Char → List Char → Bool
  | _, [] => false
  | [], _ :: _ => true
  | a :: as, b :: bs =>
    if a.toNat < b.toNat then true
    else if b.toNat < a.toNat then false
    else charListLt as bs

/-- Strict order on strings by code point, as Python compares them. -/
def strLtb (s t : String) : Bool :=
  charListLt s.data t.data

/-- Stable insertion of a string into a list, before the first element not
below it. -/
def orderedInsertStr (x : String) : List String → List String
  | [] => [x]
  | y :: ys => if strLtb y x then y :: orderedInsertStr x ys else x :: y :: ys

/-- Modelled from the spec: Python sorted() (standard library, not under
src) returns the list in ascending order; realised as insertion sort. -/
def pySorted : List String → List String
  | [] => []
  | x :: xs => orderedInsertStr x (pySorted xs)

/-- HostsAPIHandler._save_hosts (lines 117-120): write sorted(stats.keys())
one per line. -/
def save_hosts (stats : List (String × Json)) : List String :=
  pySorted (stats.map Prod.fst)

/-- Python dict.setdefault(k, v): insert v at k only when k is absent;
insertion appends in iteration order. -/
def setdefault (stats : List (String × Json)) (k : String) (v : Json) :
    List (String × Json) :=
  if containsKey stats k then stats else stats ++ [(k, v)]

/-- HostsAPIHandler.post (lines 122-126): _get_host may raise 400 before
any mutation; on success, setdefault the down/zero literal of line 124,
schedule a poll (no registry effect here), and save the hosts file. The
pair returned is the state after the request and the error, if raised. -/
def post (st : ApiState) (body : Option Json) : ApiState × Option ApiError :=
  match get_host body with
  | none => (st, some ApiError.badRequest)
  | some host =>
    let stats2 := setdefault st.stats host
      (Json.obj [("available", Json.num 0), ("capacity", Json.num 0), ("down", Json.bool true)])
    ({ stats := stats2, hostsFile := save_hosts stats2 }, none)

/-- HostsAPIHandler.delete (lines 128-131): _get_host may raise 400;
stats.pop(host) raises KeyError when the host is absent, before any
mutation; otherwise the entry is removed and the hosts file saved. -/
def deleteOp (st : ApiState) (body : Option Json) : ApiState × Option ApiError :=
  match get_host body with
  | none => (st, some ApiError.badRequest)
  | some host =>
    if containsKey st.stats host then
      let stats2 := st.stats.filter fun p => !(p.1 == host)
      ({ stats := stats2, hostsFile := save_hosts stats2 }, none)
    else (st, some ApiError.keyError)

theorem containsKey_nil (x : String) : containsKey [] x = false := rfl

theorem containsKey_cons (p : String × Json) (l : List (String × Json)) (x : String) :
    containsKey (p :: l) x = (p.1 == x || containsKey l x) := rfl

theorem lookupKey_nil (x : String) : lookupKey [] x = none := rfl

theorem lookupKey_cons (p : String × Json) (l : List (String × Json)) (x : String) :
    lookupKey (p :: l) x = if p.1 == x then some p.2 else lookupKey l x := by
  unfold lookupKey
  by_cases h : (p.1 == x) = true
  · rw [@List.find?_cons_of_pos _ (fun q => q.1 == x) p l h, if_pos h]
    rfl
  · rw [@List.find?_cons_of_neg _ (fun q => q.1 == x) p l h, if_neg h]

theorem containsKey_of_lookupKey_some {l : List (String × Json)} {x : String} {r : Json}
    (h : lookupKey l x = some r) : containsKey l x = true := by
  induction l with
  | nil => simp [lookupKey_nil] at h
  | cons p rest ih =>
    rw [lookupKey_cons] at h
    rw [containsKey_cons]
    by_cases hp : (p.1 == x) = true
    · simp [hp]
    · rw [if_neg (by simpa using hp)] at h
      rw [Bool.eq_false_iff.mpr hp, ih h]
      rfl

theorem containsKey_of_lookupKey_none {l : List (String × Json)} {x : String}
    (h : lookupKey l x = none) : containsKey l x = false := by
  induction l with
  | nil => rfl
  | cons p rest ih =>
    rw [lookupKey_cons] at h
    by_cases hp : (p.1 == x) = true
    · rw [if_pos (by simpa using hp)] at h
      cases h
    · rw [if_neg (by simpa using hp)] at h
      rw [containsKey_cons, Bool.eq_false_iff.mpr hp, ih h]
      rfl

theorem setEntry_fst (k : String) (v : Json) (p : String × Json) :
    (setEntry k v p).1 = p.1 := by
  unfold setEntry
  by_cases h : (p.1 == k) = true <;> simp [h]

theorem containsKey_map_set (s : List (String × Json)) (k x : String) (v : Json) :
    containsKey (s.map (setEntry k v)) x = containsKey s x := by
  induction s with
  | nil => rfl
  | cons p rest ih =>
    rw [List.map_cons, containsKey_cons, containsKey_cons, setEntry_fst, ih]

theorem containsKey_dictSet_of_mem {s : List (String × Json)} {k : String}
    (h : containsKey s k = true) (v : Json) (x : String) :
    containsKey (dictSet s k v) x = containsKey s x := by
  rw [dictSet, if_pos h, containsKey_map_set]

theorem containsKey_pollHostResult (s : List (String × Json)) (k : String)
    (r : Option Json) (x : String) :
    containsKey (pollHostResult s k r) x = containsKey s x := by
  cases r with
  | none =>
    by_cases h : containsKey s k
    · simp [pollHostResult, h, containsKey_dictSet_of_mem]
    · simp [pollHostResult, h]
  | some d =>
    by_cases h : containsKey s k
    · simp [pollHostResult, h, containsKey_dictSet_of_mem]
    · simp [pollHostResult, h]

theorem setEntry_of_match {k : String} {p : String × Json} (h : (p.1 == k) = true)
    (v : Json) : setEntry k v p = (p.1, v) := by
  rw [setEntry, if_pos h]

theorem setEntry_of_miss {k : String} {p : String × Json} (h : (p.1 == k) = false)
    (v : Json) : setEntry k v p = p := by
  rw [setEntry, h]
  rfl

theorem lookupKey_map_set_self (s : List (String × Json)) (k : String) (v : Json)
    (h : containsKey s k = true) :
    lookupKey (s.map (setEntry k v)) k = some v := by
  induction s with
  | nil => simp [containsKey_nil] at h
  | cons p rest ih =>
    rw [List.map_cons, lookupKey_cons]
    by_cases hp : (p.1 == k) = true
    · rw [setEntry_of_match hp]
      simp [show p.1 = k from by simpa using hp]
    · have h2 : containsKey rest k = true := by
        rw [containsKey_cons] at h
        simpa [hp] using h
      rw [setEntry_of_miss (by simpa using hp), if_neg (by simpa using hp), ih h2]

theorem lookupKey_map_set_other (s : List (String × Json)) (k x : String) (v : Json)
    (hx : ¬ k = x) :
    lookupKey (s.map (setEntry k v)) x = lookupKey s x := by
  induction s with
  | nil => rfl
  | cons p rest ih =>
    rw [List.map_cons, lookupKey_cons, lookupKey_cons]
    by_cases hp : (p.1 == k) = true
    · have hpk : p.1 = k := by simpa using hp
      rw [setEntry_of_match hp]
      simp only [hpk]
      rw [if_neg (by simpa using hx), if_neg (by simpa using hx), ih]
    · rw [setEntry_of_miss (by simpa using hp), ih]

theorem lookupKey_dictSet_self {s : List (String × Json)} {k : String}
    (h : containsKey s k = true) (v : Json) :
    lookupKey (dictSet s k v) k = some v := by
  rw [dictSet, if_pos h, lookupKey_map_set_self _ _ _ h]

theorem lookupKey_dictSet_other {s : List (String × Json)} {k : String}
    (h : containsKey s k = true) (v : Json) {x : String} (hx : ¬ k = x) :
    lookupKey (dictSet s k v) x = lookupKey s x := by
  rw [dictSet, if_pos h, lookupKey_map_set_other _ _ _ _ hx]

/-- C1: the claim fails on the code. In the snapshot with a down host a
and a live host b, the filter on line 47 tests
server_stats.get("down") — the literal key "down" on the whole dict, never
the per-host record — so the down host stays a candidate, and with the
legal draw choice = 1 (total is 2) select_host returns the down host even
though a live host exists. -/
theorem select_host_returns_down_host :
    (Record.mk 1 1 false).down = false
    ∧ 1 ≤ total_weight (upCandidates
        [("https://a", Record.mk 1 1 true), ("https://b", Record.mk 1 1 false)])
    ∧ select_host_with
        [("https://a", Record.mk 1 1 true), ("https://b", Record.mk 1 1 false)] 1
        = Except.ok "https://a"
    ∧ (Record.mk 1 1 true).down = true :=
  ⟨rfl, by decide, rfl, rfl⟩

/-- C2: the claim fails on the code. On the empty snapshot the code raises
503 with the message of the all-down condition; on a non-empty snapshot in
which every record is down it raises nothing at all (the broken filter
keeps every host) and returns the down host with the only legal draw
choice = 0 (total is 0). -/
theorem select_host_error_cases_swapped :
    select_host_with [] 0 = Except.error "All redirect targets are down"
    ∧ select_host_with [("https://a", Record.mk 0 0 true)] 0 = Except.ok "https://a"
    ∧ (Record.mk 0 0 true).down = true :=
  ⟨rfl, rfl, rfl⟩

/-- C3: the claim fails on the code. With two live hosts of zero available
and capacity 5 each, total falls back to the capacity sum 10, but the loop
on line 64 still accumulates available (zero forever), so the legal draw
choice = 3 exhausts the loop and yields the LAST host b — not the first
host whose cumulative capacity reaches 3, which would be a. A host is
still returned, but not the one the claim requires. -/
theorem select_host_fallback_ignores_capacity_weights :
    total_weight (upCandidates
      [("https://a", Record.mk 0 5 false), ("https://b", Record.mk 0 5 false)]) = 10
    ∧ select_host_with
        [("https://a", Record.mk 0 5 false), ("https://b", Record.mk 0 5 false)] 3
        = Except.ok "https://b" :=
  ⟨rfl, rfl⟩

/-- C4 counterexample: the claim fails on the code. The body composed of
the two characters bracket-open bracket-close parses (json.loads returns
the empty array), the code does no shape validation and stores the array
wholesale, while the definition following the words of the spec degrades
the host to the canonical down record. -/
theorem pollHostResult_keeps_nonrecord_body :
    pollHostResult [("https://a", down_stats)] "https://a" (some (Json.arr []))
      = [("https://a", Json.arr [])]
    ∧ specValidRecord (Json.arr []) = false
    ∧ pollHostResultSpec [("https://a", down_stats)] "https://a" (some (Json.arr []))
      = [("https://a", down_stats)]
    ∧ (Json.arr []).isObj = false
    ∧ down_stats.isObj = true :=
  ⟨rfl, rfl, rfl, rfl, rfl⟩

/-- C4 as amended: for a host present in the registry, a successful fetch
whose body parses as ANY JSON value d replaces the record wholesale with
d (no merging, no shape requirement), a failed fetch or unparseable body
replaces it with the canonical down record, and records of other hosts
are untouched in both cases. -/
theorem pollHostResult_wholesale (stats : List (String × Json)) (host : String)
    (d : Json) (hmem : containsKey stats host = true) :
    lookupKey (pollHostResult stats host (some d)) host = some d
    ∧ lookupKey (pollHostResult stats host none) host = some down_stats
    ∧ ∀ x, ¬ host = x → ∀ r : Option Json,
        lookupKey (pollHostResult stats host r) x = lookupKey stats x := by
  refine ⟨?_, ?_, ?_⟩
  · rw [pollHostResult, if_pos hmem, lookupKey_dictSet_self hmem]
  · rw [pollHostResult, if_pos hmem, lookupKey_dictSet_self hmem]
  · intro x hx r
    cases r with
    | none => rw [pollHostResult, if_pos hmem, lookupKey_dictSet_other hmem _ hx]
    | some v => rw [pollHostResult, if_pos hmem, lookupKey_dictSet_other hmem _ hx]

/-- C4 witness: the amended theorem applied to a concrete registry. -/
theorem pollHostResult_wholesale_witness :
    containsKey [("https://a", down_stats)] "https://a" = true
    ∧ lookupKey (pollHostResult [("https://a", down_stats)] "https://a"
        (some (Json.num 7))) "https://a" = some (Json.num 7) :=
  ⟨rfl, (pollHostResult_wholesale [("https://a", down_stats)] "https://a"
    (Json.num 7) rfl).1⟩

/-- C5: a host absent from the registry when the write-back loop of
update_stats runs stays absent through the whole loop, whatever the poll
outcomes are — both branches of lines 88-99 check membership before
writing, so a key deleted while a poll was in flight is never
re-inserted. -/
theorem removed_host_stays_absent (stats : List (String × Json))
    (results : List (String × Option Json)) (host : String)
    (h : containsKey stats host = false) :
    containsKey (update_stats_writeback stats results) host = false := by
  induction results generalizing stats with
  | nil => exact h
  | cons p rest ih =>
    exact ih (pollHostResult stats p.1 p.2)
      (by rw [containsKey_pollHostResult, h])

/-- C5 witness: a registry from which host a was removed, polled with a
late successful result for a, still does not contain a. -/
theorem removed_host_stays_absent_witness :
    containsKey [("https://b", down_stats)] "https://a" = false
    ∧ containsKey (update_stats_writeback [("https://b", down_stats)]
        [("https://a", some (Json.num 3)), ("https://b", none)]) "https://a" = false :=
  ⟨rfl, removed_host_stays_absent [("https://b", down_stats)]
    [("https://a", some (Json.num 3)), ("https://b", none)] "https://a" rfl⟩

/-- C7: on the fixed snapshot A (available 3, capacity 10, up) then B
(available 0, capacity 5, up), total is 3 and every legal draw
choice ≤ 3 makes select_host return A: A alone accumulates 3, which
reaches every choice in range, so B is never returned. -/
theorem select_host_fixed_scenario (choice : Nat) (h : choice ≤ 3) :
    total_weight (upCandidates
      [("A", Record.mk 3 10 false), ("B", Record.mk 0 5 false)]) = 3
    ∧ select_host_with
        [("A", Record.mk 3 10 false), ("B", Record.mk 0 5 false)] choice
        = Except.ok "A" := by
  refine ⟨rfl, ?_⟩
  have h3 : 0 + (Record.mk 3 10 false).available ≥ choice := by simpa using h
  simp only [select_host_with, select_host, upCandidates, total_weight, selectLoop]
  rw [if_neg (by decide)]
  simp [selectLoop, h3, h]

/-- C7 witness: the scenario theorem applied at the draw choice = 3. -/
theorem select_host_fixed_scenario_witness :
    total_weight (upCandidates
      [("A", Record.mk 3 10 false), ("B", Record.mk 0 5 false)]) = 3
    ∧ select_host_with
        [("A", Record.mk 3 10 false), ("B", Record.mk 0 5 false)] 3
        = Except.ok "A" :=
  select_host_fixed_scenario 3 (by decide)

theorem char_eq_of_toNat_eq {a b : Char} (h : a.toNat = b.toNat) : a = b := by
  rcases a with ⟨⟨⟨va, hva⟩⟩, pa⟩
  rcases b with ⟨⟨⟨vb, hvb⟩⟩, pb⟩
  simp [Char.toNat, UInt32.toNat] at h
  subst h
  rfl

theorem charListLt_irrefl (l : List Char) : charListLt l l = false := by
  induction l with
  | nil => rfl
  | cons c cs ih => simp [charListLt, Nat.lt_irrefl, ih]

theorem charListLt_trans {a b c : List Char} (hab : charListLt a b = true)
    (hbc : charListLt b c = true) : charListLt a c = true := by
  induction a generalizing b c with
  | nil =>
    cases c with
    | nil => cases b <;> simp [charListLt] at hab hbc
    | cons c cs => simp [charListLt]
  | cons a as ih =>
    cases b with
    | nil => simp [charListLt] at hab
    | cons b bs =>
      cases c with
      | nil => simp [charListLt] at hbc
      | cons c cs =>
        simp only [charListLt] at hab hbc ⊢
        by_cases h1 : a.toNat < b.toNat
        · by_cases h2 : b.toNat < c.toNat
          · rw [if_pos (by omega : a.toNat < c.toNat)]
          · rw [if_neg h2] at hbc
            by_cases h3 : c.toNat < b.toNat
            · rw [if_pos h3] at hbc
              cases hbc
            · rw [if_neg h3] at hbc
              rw [if_pos (by omega : a.toNat < c.toNat)]
        · rw [if_neg h1] at hab
          by_cases h4 : b.toNat < a.toNat
          · rw [if_pos h4] at hab
            cases hab
          · rw [if_neg h4] at hab
            by_cases h2 : b.toNat < c.toNat
            · rw [if_pos (by omega : a.toNat < c.toNat)]
            · rw [if_neg h2] at hbc
              by_cases h3 : c.toNat < b.toNat
              · rw [if_pos h3] at hbc
                cases hbc
              · rw [if_neg h3] at hbc
                rw [if_neg (by omega : ¬ a.toNat < c.toNat),
                  if_neg (by omega : ¬ c.toNat < a.toNat)]
                exact ih hab hbc

theorem charListLt_conn {a b : List Char} (h : charListLt a b = false) :
    charListLt b a = true ∨ a = b := by
  induction a generalizing b with
  | nil =>
    cases b with
    | nil => exact Or.inr rfl
    | cons b bs => simp [charListLt] at h
  | cons a as ih =>
    cases b with
    | nil => exact Or.inl (by simp [charListLt])
    | cons b bs =>
      simp only [charListLt] at h ⊢
      by_cases h1 : a.toNat < b.toNat
      · rw [if_pos h1] at h
        cases h
      · rw [if_neg h1] at h
        by_cases h2 : b.toNat < a.toNat
        · exact Or.inl (by rw [if_pos h2])
        · rw [if_neg h2] at h
          have hab : a = b := char_eq_of_toNat_eq (by omega)
          rcases ih h with h3 | h3
          · refine Or.inl ?_
            rw [if_neg (by omega), if_neg (by omega)]
            exact h3
          · exact Or.inr (by rw [hab, h3])

theorem charListLt_asymm {a b : List Char} (h : charListLt a b = true) :
    charListLt b a = false := by
  by_contra hc
  have h2 : charListLt b a = true := by
    cases hba : charListLt b a
    · exact absurd hba hc
    · rfl
  have h3 := charListLt_trans h h2
  rw [charListLt_irrefl] at h3
  cases h3

theorem charListLt_nlt_trans {x y z : List Char}
    (h1 : charListLt y x = false) (h2 : charListLt z y = false) :
    charListLt z x = false := by
  by_contra hc
  have hzx : charListLt z x = true := by
    cases hv : charListLt z x
    · exact absurd hv hc
    · rfl
  rcases charListLt_conn h1 with hxy | hyx
  · have h4 := charListLt_trans hzx hxy
    rw [h2] at h4
    cases h4
  · rw [hyx] at h2
    rw [h2] at hzx
    cases hzx

theorem mem_orderedInsertStr {x b : String} {l : List String}
    (hb : b ∈ orderedInsertStr x l) : b = x ∨ b ∈ l := by
  induction l with
  | nil =>
    rw [orderedInsertStr] at hb
    rcases List.mem_singleton.mp hb with rfl
    exact Or.inl rfl
  | cons y ys ih =>
    rw [orderedInsertStr] at hb
    by_cases h : strLtb y x = true
    · rw [if_pos h] at hb
      rcases List.mem_cons.mp hb with rfl | hb2
      · exact Or.inr (List.mem_cons_self _ _)
      · rcases ih hb2 with h3 | h3
        · exact Or.inl h3
        · exact Or.inr (List.mem_cons_of_mem _ h3)
    · rw [if_neg h] at hb
      rcases List.mem_cons.mp hb with rfl | hb2
      · exact Or.inl rfl
      · exact Or.inr hb2

theorem pairwise_orderedInsertStr (x : String) (l : List String)
    (hl : List.Pairwise (fun a b => charListLt b.data a.data = false) l) :
    List.Pairwise (fun a b => charListLt b.data a.data = false)
      (orderedInsertStr x l) := by
  induction l with
  | nil => simp [orderedInsertStr]
  | cons y ys ih =>
    rw [orderedInsertStr]
    rcases List.pairwise_cons.mp hl with ⟨hy, hys⟩
    by_cases h : strLtb y x = true
    · rw [if_pos h]
      refine List.pairwise_cons.mpr ⟨?_, ih hys⟩
      intro b hb
      rcases mem_orderedInsertStr hb with rfl | hb2
      · exact charListLt_asymm h
      · exact hy b hb2
    · rw [if_neg h]
      have hxy : charListLt y.data x.data = false := by
        cases hv : strLtb y x
        · exact hv
        · exact absurd hv h
      refine List.pairwise_cons.mpr ⟨?_, hl⟩
      intro b hb
      rcases List.mem_cons.mp hb with rfl | hb2
      · exact hxy
      · exact charListLt_nlt_trans hxy (hy b hb2)

theorem perm_orderedInsertStr (x : String) (l : List String) :
    (orderedInsertStr x l).Perm (x :: l) := by
  induction l with
  | nil => exact List.Perm.refl _
  | cons y ys ih =>
    rw [orderedInsertStr]
    by_cases h : strLtb y x = true
    · rw [if_pos h]
      exact (ih.cons y).trans (List.Perm.swap x y ys)
    · rw [if_neg h]

theorem pairwise_pySorted (l : List String) :
    List.Pairwise (fun a b => charListLt b.data a.data = false) (pySorted l) := by
  induction l with
  | nil => exact List.Pairwise.nil
  | cons x xs ih => exact pairwise_orderedInsertStr x _ ih

theorem perm_pySorted (l : List String) : (pySorted l).Perm l := by
  induction l with
  | nil => exact List.Perm.refl _
  | cons x xs ih => exact (perm_orderedInsertStr x _).trans (ih.cons x)

theorem mem_keys_of_lookupKey_some {l : List (String × Json)} {x : String} {r : Json}
    (h : lookupKey l x = some r) : x ∈ l.map Prod.fst := by
  induction l with
  | nil => simp [lookupKey_nil] at h
  | cons p rest ih =>
    rw [lookupKey_cons] at h
    by_cases hp : (p.1 == x) = true
    · have : p.1 = x := by simpa using hp
      simp [this]
    · rw [if_neg (by simpa using hp)] at h
      simp [ih h]

theorem lookupKey_append_absent {s : List (String × Json)} {k : String}
    (h : containsKey s k = false) (v : Json) :
    lookupKey (s ++ [(k, v)]) k = some v := by
  induction s with
  | nil => simp [lookupKey_cons]
  | cons p rest ih =>
    rw [containsKey_cons] at h
    have hp : (p.1 == k) = false := by
      cases hv : (p.1 == k)
      · rfl
      · rw [hv] at h
        cases h
    have hrest : containsKey rest k = false := by
      rw [hp] at h
      simpa using h
    rw [List.cons_append, lookupKey_cons, if_neg (by simp [hp]), ih hrest]

theorem containsKey_filter_self (s : List (String × Json)) (host : String) :
    containsKey (s.filter fun p => !(p.1 == host)) host = false := by
  induction s with
  | nil => rfl
  | cons p rest ih =>
    rw [List.filter_cons]
    by_cases hp : (p.1 == host) = true
    · simp only [hp, Bool.not_true, if_neg]
      simpa using ih
    · have hp2 : (p.1 == host) = false := by
        cases hv : (p.1 == host)
        · rfl
        · exact absurd hv hp
      simp only [hp2, Bool.not_false, if_pos]
      rw [containsKey_cons, hp2, ih]
      rfl

theorem lookupKey_filter_other {s : List (String × Json)} {host x : String}
    (hx : ¬ host = x) :
    lookupKey (s.filter fun p => !(p.1 == host)) x = lookupKey s x := by
  induction s with
  | nil => rfl
  | cons p rest ih =>
    rw [List.filter_cons]
    by_cases hp : (p.1 == host) = true
    · have hpx : (p.1 == x) = false := by
        have : p.1 = host := by simpa using hp
        subst this
        simpa using hx
      simp only [hp, Bool.not_true]
      rw [if_neg Bool.false_ne_true, ih, lookupKey_cons, if_neg (by simp [hpx])]
    · have hp2 : (p.1 == host) = false := by
        cases hv : (p.1 == host)
        · rfl
        · exact absurd hv hp
      simp only [hp2, Bool.not_false, if_pos]
      rw [lookupKey_cons, lookupKey_cons, ih]

/-- C6: add is idempotent. For a valid request body naming a host already
present with record r, the post handler (setdefault on line 124) leaves the
registry unchanged: the record is still r — even one written by a poll —
and under the dict invariant of distinct keys there is exactly one entry
for the host. A host not yet present is inserted with the down/zero
literal of line 124. -/
theorem post_readd_is_noop (st : ApiState) (body : Option Json) (host : String)
    (r : Json) (hbody : get_host body = some host)
    (hnodup : (st.stats.map Prod.fst).Nodup)
    (hmem : lookupKey st.stats host = some r) :
    (post st body).1.stats = st.stats
    ∧ lookupKey (post st body).1.stats host = some r
    ∧ ((post st body).1.stats.map Prod.fst).count host = 1
    ∧ ∀ st2 : ApiState, lookupKey st2.stats host = none →
        lookupKey (post st2 body).1.stats host = some down_stats := by
  have hc : containsKey st.stats host = true := containsKey_of_lookupKey_some hmem
  have hstats : (post st body).1.stats = st.stats := by
    simp only [post, hbody, setdefault, hc, if_true]
  refine ⟨hstats, ?_, ?_, ?_⟩
  · rw [hstats, hmem]
  · rw [hstats]
    exact List.count_eq_one_of_mem hnodup (mem_keys_of_lookupKey_some hmem)
  · intro st2 h2
    have hc2 : containsKey st2.stats host = false := containsKey_of_lookupKey_none h2
    simp only [post, hbody, setdefault, hc2]
    rw [if_neg (by simp)]
    exact lookupKey_append_absent hc2 _

/-- C6 witness: re-adding a host whose record was already replaced by a
poll result leaves that record in place. -/
theorem post_readd_is_noop_witness :
    get_host (some (Json.obj [("host", Json.str "https://a")])) = some "https://a"
    ∧ lookupKey [("https://a", Json.num 7)] "https://a" = some (Json.num 7)
    ∧ (post ⟨[("https://a", Json.num 7)], ["https://a"]⟩
        (some (Json.obj [("host", Json.str "https://a")]))).1.stats
        = [("https://a", Json.num 7)] :=
  ⟨rfl, rfl,
    (post_readd_is_noop ⟨[("https://a", Json.num 7)], ["https://a"]⟩
      (some (Json.obj [("host", Json.str "https://a")])) "https://a" (Json.num 7)
      rfl (by simp) rfl).1⟩

/-- C8: for a valid request body naming a host, the delete handler raises
KeyError — the not-found failure of stats.pop on line 130 — exactly when
the host is absent, and then mutates nothing. When the host is present,
no error is raised, the entry for the host is removed while every other
lookup is unchanged, and the persisted hosts file is exactly the key set
of the updated registry in ascending order (a sorted permutation of its
keys). -/
theorem deleteOp_remove_semantics (st : ApiState) (body : Option Json)
    (host : String) (hbody : get_host body = some host) :
    (containsKey st.stats host = false →
      deleteOp st body = (st, some ApiError.keyError))
    ∧ (containsKey st.stats host = true →
        (deleteOp st body).2 = none
        ∧ containsKey (deleteOp st body).1.stats host = false
        ∧ (∀ x, ¬ host = x →
            lookupKey (deleteOp st body).1.stats x = lookupKey st.stats x)
        ∧ (deleteOp st body).1.hostsFile
            = pySorted ((deleteOp st body).1.stats.map Prod.fst)
        ∧ List.Pairwise (fun a b => charListLt b.data a.data = false)
            (deleteOp st body).1.hostsFile
        ∧ ((deleteOp st body).1.hostsFile).Perm
            ((deleteOp st body).1.stats.map Prod.fst)) := by
  constructor
  · intro habs
    simp only [deleteOp, hbody, habs]
    rw [if_neg (by simp)]
  · intro hmem
    have hred : deleteOp st body
        = ({ stats := st.stats.filter fun p => !(p.1 == host),
             hostsFile := save_hosts (st.stats.filter fun p => !(p.1 == host)) },
           none) := by
      simp only [deleteOp, hbody, hmem, if_true]
    rw [hred]
    refine ⟨rfl, containsKey_filter_self _ _, ?_, rfl, ?_, ?_⟩
    · intro x hx
      exact lookupKey_filter_other hx
    · exact pairwise_pySorted _
    · exact perm_pySorted _

/-- C8 witness: deleting a present host removes it; deleting an absent
host fails with KeyError and changes nothing. -/
theorem deleteOp_remove_semantics_witness :
    get_host (some (Json.obj [("host", Json.str "https://a")])) = some "https://a"
    ∧ containsKey [("https://a", Json.num 2), ("https://b", Json.num 1)] "https://a" = true
    ∧ containsKey (deleteOp
        ⟨[("https://a", Json.num 2), ("https://b", Json.num 1)], ["https://a", "https://b"]⟩
        (some (Json.obj [("host", Json.str "https://a")]))).1.stats "https://a" = false
    ∧ deleteOp ⟨[("https://b", Json.num 1)], ["https://b"]⟩
        (some (Json.obj [("host", Json.str "https://a")]))
        = (⟨[("https://b", Json.num 1)], ["https://b"]⟩, some ApiError.keyError) :=
  ⟨rfl, rfl,
    ((deleteOp_remove_semantics
      ⟨[("https://a", Json.num 2), ("https://b", Json.num 1)], ["https://a", "https://b"]⟩
      (some (Json.obj [("host", Json.str "https://a")])) "https://a" rfl).2 rfl).2.1,
    (deleteOp_remove_semantics ⟨[("https://b", Json.num 1)], ["https://b"]⟩
      (some (Json.obj [("host", Json.str "https://a")])) "https://a" rfl).1 rfl⟩

/-- C9: the draw on line 61 is random.randint(0, total) — the closed
interval from 0 to total inclusive. Modelling randint by any oracle whose
result respects its two bounds: select_host uses exactly the value drawn
at bounds 0 and total, that value never exceeds total, and every value of
the closed interval — including total itself, the intentional off-by-one
— is realised by some valid oracle. Uniformity of the distribution is the
semantics of the standard library randint and has no further content in
this functional model. -/
theorem select_host_draw_interval (s : List (String × Record))
    (R : Nat → Nat → Nat) (hR : ValidRandint R) :
    select_host s R = select_host_with s (R 0 (total_weight (upCandidates s)))
    ∧ R 0 (total_weight (upCandidates s)) ≤ total_weight (upCandidates s)
    ∧ ∀ c : Nat, c ≤ total_weight (upCandidates s) →
        ∃ Q : Nat → Nat → Nat, ValidRandint Q
          ∧ Q 0 (total_weight (upCandidates s)) = c := by
  refine ⟨?_, (hR 0 _ (Nat.zero_le _)).2, ?_⟩
  · cases hup : upCandidates s with
    | nil => simp [select_host, select_host_with, hup]
    | cons p rest => cases p with
      | mk h r => simp [select_host, select_host_with, hup]
  · intro c hc
    refine ⟨fun a b => min (max c a) b, ?_, ?_⟩
    · intro a b hab
      exact ⟨le_min (le_max_right c a) hab, min_le_right _ _⟩
    · show min (max c 0) (total_weight (upCandidates s)) = c
      rw [Nat.max_eq_left (Nat.zero_le c), Nat.min_eq_left hc]

/-- C9 witness: the identity-lower-bound oracle is valid and its draw on a
concrete snapshot lies within the computed total. -/
theorem select_host_draw_interval_witness :
    ValidRandint (fun a _ => a)
    ∧ (fun (a : Nat) (_ : Nat) => a) 0
        (total_weight (upCandidates [("https://a", Record.mk 1 2 false)]))
        ≤ total_weight (upCandidates [("https://a", Record.mk 1 2 false)]) :=
  ⟨fun a _ h => ⟨Nat.le_refl a, h⟩,
    (select_host_draw_interval [("https://a", Record.mk 1 2 false)] (fun a _ => a)
      (fun a _ h => ⟨Nat.le_refl a, h⟩)).2.1⟩

/-- C10: the hosts API mutations are atomic on error. A post whose body
fails validation in _get_host raises 400 with the registry and the
persisted file both untouched, and so does a delete with an invalid body;
a delete naming an absent host raises KeyError, again leaving both
untouched, because stats.pop raises before _save_hosts runs. -/
theorem api_mutations_atomic_on_error (st : ApiState) (body : Option Json) :
    (get_host body = none →
      post st body = (st, some ApiError.badRequest)
      ∧ deleteOp st body = (st, some ApiError.badRequest))
    ∧ (∀ host, get_host body = some host → containsKey st.stats host = false →
        deleteOp st body = (st, some ApiError.keyError)) := by
  constructor
  · intro h
    exact ⟨by simp only [post, h], by simp only [deleteOp, h]⟩
  · intro host h habs
    simp only [deleteOp, h, habs]
    rw [if_neg (by simp)]

/-- C10 witness: a post with an ftp scheme fails validation and leaves
the state untouched. -/
theorem api_mutations_atomic_on_error_witness :
    get_host (some (Json.obj [("host", Json.str "ftp://x")])) = none
    ∧ post ⟨[("https://a", Json.num 1)], ["https://a"]⟩
        (some (Json.obj [("host", Json.str "ftp://x")]))
        = (⟨[("https://a", Json.num 1)], ["https://a"]⟩, some ApiError.badRequest) :=
  ⟨rfl,
    ((api_mutations_atomic_on_error ⟨[("https://a", Json.num 1)], ["https://a"]⟩
      (some (Json.obj [("host", Json.str "ftp://x")]))).1 rfl).1⟩

end Redirector
